import Mathlib

/-!
Shallow embedding of the component handler of `src/scripts/mdlComponentHandler.js`
(the "componentHandler" module) and proofs about its registry, upgrade engine and
downgrade engine.

Modelling conventions:
* DOM elements are identified by natural numbers; the document is a total map from
  identifiers to per-element state (`ElemState`).  Every identifier is assumed to
  reference a genuine `Element`/`HTMLElement`, so the `instanceof` argument checks
  of the source (which throw on non-elements) are not represented.
* JS strings are Lean `String`s; `String.prototype.split` with the one-character
  separator `','` and `Array.prototype.join(',')` are embedded by `jsSplit` and
  `jsJoin` below, including the JS behaviour on the empty string.
* Widget constructor functions and upgrade callbacks are external code; they are
  identified by numbers and modelled as having no effect on the handler state.
  Event listeners are modelled by the per-element flag `cancelUpgrading`, which
  decides whether a cancelable event dispatched at that element gets
  `preventDefault()` called on it.
* Operations that can `throw` return `Except (String × MdlState) MdlState` (or the
  registry instead of the full state for `register`); the error value carries the
  message together with the state at the moment of the throw, so that side effects
  performed before the throw remain observable, as they do in JS.
-/

namespace Mdl

/-- The comma separator used by the `data-upgraded` attribute encoding. -/
def comma : Char := ','

/-- JS `String.prototype.split` restricted to a one-character separator, acting on
the character list: occurrences of the separator are removed and the pieces between
them are kept, so the result always has one more piece than there are separators;
in particular the empty list yields `[[]]`, matching JS `''.split(',') === ['']`. -/
def splitChar (c : Char) : List Char → List (List Char)
  | [] => [[]]
  | a :: rest =>
    if a = c then [] :: splitChar c rest
    else
      match splitChar c rest with
      | h :: t => (a :: h) :: t
      | [] => [[a]]

/-- JS `Array.prototype.join` with a one-character separator, on character lists. -/
def joinChar (c : Char) : List (List Char) → List Char
  | [] => []
  | [p] => p
  | p :: rest => p ++ c :: joinChar c rest

/-- JS `s.split(sep)` for a one-character separator `sep`. -/
def jsSplit (sep : Char) (s : String) : List String :=
  (splitChar sep s.data).map String.mk

/-- JS `parts.join(sep)` for a one-character separator `sep`. -/
def jsJoin (sep : Char) (parts : List String) : String :=
  String.mk (joinChar sep (parts.map String.data))

/-- JS `Array.prototype.indexOf`: the index of the first occurrence, or `-1`. -/
def jsIndexOf [BEq α] (l : List α) (x : α) : Int :=
  match l.indexOf? x with
  | some i => (i : Int)
  | none => -1

/-- JS `Array.prototype.indexOf` where the searched-for value may be `undefined`
(`none`): `undefined` is not equal to any string element, so the result is `-1`. -/
def jsIndexOfOpt (l : List String) : Option String → Int
  | none => -1
  | some v => jsIndexOf l v

/-- JS `arr.splice(start, 1)`: remove one element at `start`, where a negative
`start` counts from the end (clamped at `0`) and a `start` at or beyond the length
removes nothing. -/
def spliceOne (l : List α) (start : Int) : List α :=
  let len : Int := (l.length : Int)
  let s := if start < 0 then max (len + start) 0 else min start len
  l.take s.toNat ++ l.drop (s.toNat + 1)

/-- A registered component descriptor, `componentHandler.ComponentConfig`:
fields `classConstructor`, `className`, `cssClass`, `widget`, `callbacks` as built
by `registerInternal`.  The constructor function and the callback functions are
external code, identified here by numbers. -/
structure ComponentConfig where
  classConstructor : Nat
  className : String
  cssClass : String
  widget : Bool
  callbacks : List Nat
deriving DecidableEq, Repr

/-- The caller-supplied registration record, `componentHandler.ComponentConfigPublic`:
`constructor`, `classAsString`, `cssClass` and the optional `widget` flag.
`constructorHasConfigProperty` models whether the supplied constructor's prototype
already defines the reserved `mdlComponentConfigInternal_` property. -/
structure ComponentConfigPublic where
  constructorRef : Nat
  constructorHasConfigProperty : Bool
  classAsString : String
  cssClass : String
  widget : Option Bool
deriving DecidableEq, Repr

/-- A created widget instance as tracked in `createdComponents_`: it keeps a
back-reference `elementId` to its element (`element_` in the source) and the
`ComponentConfig` stored on it under `mdlComponentConfigInternal_`.  The `id` field
makes instances distinct objects, as JS object identity does. -/
structure Component where
  id : Nat
  elementId : Nat
  config : ComponentConfig
deriving DecidableEq, Repr

/-- The DOM-side state of one element: its CSS class list, the `data-upgraded`
attribute (`none` when absent), its child element identifiers, the expando
properties `element[className] = instance` installed for widget components, and
whether a listener on this element cancels cancelable events dispatched at it. -/
structure ElemState where
  classList : List String
  dataUpgraded : Option String
  children : List Nat
  props : List (String × Nat)
  cancelUpgrading : Bool
deriving DecidableEq, Repr

/-- A dispatched DOM event, as produced by `createEvent_` in the source. -/
structure EventRec where
  elementId : Nat
  eventType : String
  bubbles : Bool
  cancelable : Bool
deriving DecidableEq, Repr

/-- The whole mutable state of the component handler module together with the DOM:
`registeredComponents_`, `createdComponents_`, the document, the trace of dispatched
events, and a counter supplying fresh instance identities. -/
structure MdlState where
  registeredComponents : List ComponentConfig
  createdComponents : List Component
  dom : Nat → ElemState
  events : List EventRec
  nextInstanceId : Nat

/-- The reserved bookkeeping property name, `componentConfigProperty_`. -/
def componentConfigProperty_ : String := "mdlComponentConfigInternal_"

/-- Source `findRegisteredClass_(name, optReplace)`: linear scan of the registry for
a descriptor whose `className` equals `name`; when `optReplace` is supplied the
matching slot is overwritten in place and the replacement is returned.  The result
pairs the JS return value (`false` becomes `none`) with the possibly-updated
registry. -/
def findRegisteredClass_ (name : String) (optReplace : Option ComponentConfig) :
    List ComponentConfig → Option ComponentConfig × List ComponentConfig
  | [] => (none, [])
  | item :: rest =>
    if item.className = name then
      match optReplace with
      | some repl => (some repl, repl :: rest)
      | none => (some item, item :: rest)
    else
      let r := findRegisteredClass_ name optReplace rest
      (r.1, item :: r.2)

/-- Source `getUpgradedListOfElement_`: read `data-upgraded`, defaulting a missing
attribute to `['']` and otherwise splitting on commas. -/
def getUpgradedListOfElement_ (element : ElemState) : List String :=
  match element.dataUpgraded with
  | none => [""]
  | some dataUpgraded => jsSplit comma dataUpgraded

/-- Source `isElementUpgraded_`: membership of `jsClass` in the upgraded list
(`indexOf(jsClass) !== -1`). -/
def isElementUpgraded_ (element : ElemState) (jsClass : String) : Bool :=
  (getUpgradedListOfElement_ element).contains jsClass

/-- The duplicate scan at the top of `registerInternal`: for each already registered
item, in order, throw if it reuses the new descriptor's `cssClass`, then if it
reuses its `className`. -/
def checkDuplicateRegistrations (newConfig : ComponentConfig) :
    List ComponentConfig → Except String Unit
  | [] => .ok ()
  | item :: rest =>
    if item.cssClass = newConfig.cssClass then
      .error ("The provided cssClass has already been registered: " ++ item.cssClass)
    else if item.className = newConfig.className then
      .error "The provided className has already been registered"
    else checkDuplicateRegistrations newConfig rest

/-- The `newConfig` record built by `registerInternal` from the caller's config:
the widget flag defaults to `true` when the caller did not pass one. -/
def newConfigOf (config : ComponentConfigPublic) : ComponentConfig :=
  let widgetMissing := config.widget.isNone
  let widget := if widgetMissing then true else config.widget.getD true
  { classConstructor := config.constructorRef
    className := config.classAsString
    cssClass := config.cssClass
    widget := widget
    callbacks := [] }

/-- Source `registerInternal(config)`: build `newConfig`, reject duplicate
`cssClass`/`className`, reject a constructor whose prototype already defines the
reserved bookkeeping property, then look up the logical name with replacement and
append only when no existing slot was found. -/
def registerInternal (config : ComponentConfigPublic)
    (registeredComponents : List ComponentConfig) :
    Except (String × List ComponentConfig) (List ComponentConfig) :=
  let newConfig := newConfigOf config
  match checkDuplicateRegistrations newConfig registeredComponents with
  | .error msg => .error (msg, registeredComponents)
  | .ok () =>
    if config.constructorHasConfigProperty then
      .error ("MDL component classes must not have " ++ componentConfigProperty_ ++
        " defined as a property.", registeredComponents)
    else
      let r := findRegisteredClass_ config.classAsString (some newConfig)
        registeredComponents
      if r.1.isSome then .ok r.2 else .ok (r.2 ++ [newConfig])

/-- Construct the event record built by source `createEvent_` (the host branch on
`CustomEvent` support only affects how the object is constructed, not its data). -/
def createEvent_ (elementId : Nat) (eventType : String) (bubbles cancelable : Bool) :
    EventRec :=
  { elementId := elementId, eventType := eventType, bubbles := bubbles
    cancelable := cancelable }

/-- Dispatch an event: it is appended to the global event trace. -/
def dispatchEvent (s : MdlState) (ev : EventRec) : MdlState :=
  { s with events := s.events ++ [ev] }

/-- Whether the dispatched event ends up with `defaultPrevented` set: only a
cancelable event can be prevented, and the listeners are modelled by the target
element's `cancelUpgrading` flag. -/
def defaultPrevented (s : MdlState) (ev : EventRec) : Bool :=
  ev.cancelable && (s.dom ev.elementId).cancelUpgrading

/-- Replace the state of element `i` in the document. -/
def setElem (s : MdlState) (i : Nat) (e : ElemState) : MdlState :=
  { s with dom := fun j => if j = i then e else s.dom j }

/-- JS `element.setAttribute('data-upgraded', v)`. -/
def setDataUpgraded (s : MdlState) (i : Nat) (v : String) : MdlState :=
  setElem s i { s.dom i with dataUpgraded := some v }

/-- JS `element[className] = instance` (the widget API expando property). -/
def setProp (s : MdlState) (i : Nat) (name : String) (instId : Nat) : MdlState :=
  setElem s i { s.dom i with props := (s.dom i).props ++ [(name, instId)] }

/-- The `registeredComponents_.forEach` scan of `upgradeElementInternal` that
collects `classesToUpgrade` when no `jsClass` was supplied: a descriptor qualifies
if the element's class list carries its `cssClass`, it has not already been pushed
in this pass, and the element is not already upgraded for its `className`. -/
def scanMatchingComponents (registeredComponents : List ComponentConfig)
    (element : ElemState) : List (Option ComponentConfig) :=
  registeredComponents.foldl
    (fun classesToUpgrade component =>
      if element.classList.contains component.cssClass
          && !(classesToUpgrade.contains (some component))
          && !(isElementUpgraded_ element component.className)
      then classesToUpgrade ++ [some component]
      else classesToUpgrade)
    []

/-- The selection step of `upgradeElementInternal`: with no `optJsClass` (or the
empty string, which is falsy in JS, so `!optJsClass` sends it down the same branch)
scan the registry; otherwise push the single result of `findRegisteredClass_`
(possibly JS `false`, i.e. `none`) unless the element is already upgraded for the
given class. -/
def selectClassesToUpgrade (registeredComponents : List ComponentConfig)
    (element : ElemState) (optJsClass : Option String) :
    List (Option ComponentConfig) :=
  match optJsClass with
  | none => scanMatchingComponents registeredComponents element
  | some jsClass =>
    if jsClass = "" then scanMatchingComponents registeredComponents element
    else if !isElementUpgraded_ element jsClass then
      [(findRegisteredClass_ jsClass none registeredComponents).1]
    else []

/-- One iteration body of the `for` loop of `upgradeElementInternal` over
`classesToUpgrade`, for a truthy `registeredClass` entry and the current value of
the JS variable `upgradedList`: append the class name to the marker and persist it,
create and track the instance (storing the descriptor on it under the bookkeeping
property), invoke the (externally modelled) callbacks, install the widget expando
property when the widget flag is set, and fire the non-cancelable upgraded event. -/
def upgradeStep (elementId : Nat) (registeredClass : ComponentConfig)
    (upgradedList : List String) (s : MdlState) : MdlState :=
  let upgradedList' := upgradedList ++ [registeredClass.className]
  let s1 := setDataUpgraded s elementId (jsJoin comma upgradedList')
  let inst : Component :=
    { id := s1.nextInstanceId, elementId := elementId, config := registeredClass }
  let s2 := { s1 with
    createdComponents := s1.createdComponents ++ [inst]
    nextInstanceId := s1.nextInstanceId + 1 }
  let s3 :=
    if registeredClass.widget then
      setProp s2 elementId registeredClass.className inst.id
    else s2
  dispatchEvent s3 (createEvent_ elementId "mdl-componentupgraded" true false)

/-- The `for` loop of `upgradeElementInternal` over `classesToUpgrade`, threading
the JS variable `upgradedList`: apply `upgradeStep` to each truthy entry; a falsy
entry (JS `false` from `findRegisteredClass_`) throws. -/
def upgradeLoop (elementId : Nat) :
    List (Option ComponentConfig) → List String → MdlState →
    Except (String × MdlState) MdlState
  | [], _, s => .ok s
  | none :: _, _, s =>
    .error ("Unable to find a registered component for the given class.", s)
  | some registeredClass :: rest, upgradedList, s =>
    upgradeLoop elementId rest (upgradedList ++ [registeredClass.className])
      (upgradeStep elementId registeredClass upgradedList s)

/-- Source `upgradeElementInternal(element, optJsClass)`: dispatch the cancelable
upgrading event and stop if it was prevented; otherwise read the upgraded list,
select the classes to upgrade, and run the upgrade loop. -/
def upgradeElementInternal (elementId : Nat) (optJsClass : Option String)
    (s : MdlState) : Except (String × MdlState) MdlState :=
  let upgradingEv := createEvent_ elementId "mdl-componentupgrading" true true
  let s1 := dispatchEvent s upgradingEv
  if defaultPrevented s1 upgradingEv then .ok s1
  else
    let element := s1.dom elementId
    let upgradedList := getUpgradedListOfElement_ element
    let classesToUpgrade := selectClassesToUpgrade s1.registeredComponents element
      optJsClass
    upgradeLoop elementId classesToUpgrade upgradedList s1

/-- Source `upgradeElementsInternal(elements)` after input normalization (the
argument is already a list of element identifiers, and every identifier denotes a
genuine `HTMLElement`): upgrade each element in order and recurse into its children
when it has any.  The `fuel` argument is a model artifact bounding the recursion
depth into children; it is not part of the source, which recurses on the finite
DOM tree. -/
def upgradeElementsInternal (fuel : Nat) (elements : List Nat) (s : MdlState) :
    Except (String × MdlState) MdlState :=
  match elements with
  | [] => .ok s
  | elementId :: rest =>
    match upgradeElementInternal elementId none s with
    | .error err => .error err
    | .ok s1 =>
      if ((s1.dom elementId).children).length > 0 then
        match fuel with
        | 0 => .error ("model artifact: recursion fuel exhausted", s1)
        | fuel' + 1 =>
          match upgradeElementsInternal fuel' ((s1.dom elementId).children) s1 with
          | .error err => .error err
          | .ok s2 => upgradeElementsInternal (fuel' + 1) rest s2
      else upgradeElementsInternal fuel rest s1
termination_by (fuel, elements.length)

/-- Property access `component[componentConfigProperty_].classAsString` inside
`deconstructComponentInternal`: the stored `ComponentConfig` record was built by
`registerInternal` with fields `classConstructor`, `className`, `cssClass`,
`widget`, `callbacks` and has no `classAsString` field, so in JS this access
yields `undefined`. -/
def configClassAsString (_config : ComponentConfig) : Option String := none

/-- Source `deconstructComponentInternal(component)`: splice the component out of
`createdComponents_`, splice its (looked-up) class name out of the `data-upgraded`
list and persist the list back, then fire the non-cancelable downgraded event.
The `if (component)` truthiness guard is not represented because the model never
passes a null component.  `getAttribute('data-upgraded')` is read as the empty
string when the attribute is absent; in JS a null here would make the host throw,
but the attribute is always present for a tracked component because the upgrade
loop sets it before creating the instance. -/
def deconstructComponentInternal (component : Component) (s : MdlState) : MdlState :=
  let componentIndex := jsIndexOf s.createdComponents component
  let s1 := { s with createdComponents := spliceOne s.createdComponents componentIndex }
  let upgrades := jsSplit comma ((s1.dom component.elementId).dataUpgraded.getD "")
  let componentPlace := jsIndexOfOpt upgrades (configClassAsString component.config)
  let upgrades' := spliceOne upgrades componentPlace
  let s2 := setDataUpgraded s1 component.elementId (jsJoin comma upgrades')
  dispatchEvent s2 (createEvent_ component.elementId "mdl-componentdowngraded" true false)

/-- The auxiliary `downgradeNode` of `downgradeNodesInternal`: filter the snapshot
of `createdComponents_` for instances whose element is `node` and deconstruct each
in order. -/
def downgradeNode (node : Nat) (s : MdlState) : MdlState :=
  (s.createdComponents.filter (fun item => item.elementId == node)).foldl
    (fun acc item => deconstructComponentInternal item acc) s

/-- Source `downgradeNodesInternal(nodes)` after input normalization: the argument
is already a list of node identifiers (a single node is the one-element list), and
every identifier denotes a genuine `Node`, so the invalid-argument throw is not
represented. -/
def downgradeNodesInternal (nodes : List Nat) (s : MdlState) : MdlState :=
  nodes.foldl (fun acc n => downgradeNode n acc) s

/-! Lemmas about the JS string and array primitives. -/

theorem splitChar_ne_nil (c : Char) : ∀ l : List Char, splitChar c l ≠ []
  | [] => by simp [splitChar]
  | a :: rest => by
    unfold splitChar
    by_cases h : a = c
    · simp [h]
    · simp only [if_neg h]
      cases hs : splitChar c rest with
      | nil => simp
      | cons hd tl => simp

theorem splitChar_single (c : Char) (l : List Char) (h : ∀ a ∈ l, a ≠ c) :
    splitChar c l = [l] := by
  induction l with
  | nil => rfl
  | cons a rest ih =>
    have ha : a ≠ c := h a (by simp)
    have hr := ih (fun x hx => h x (by simp [hx]))
    simp [splitChar, ha, hr]

theorem splitChar_cons_sep (c : Char) (l : List Char) :
    splitChar c (c :: l) = [] :: splitChar c l := by
  simp [splitChar]

theorem splitChar_append_sep (c : Char) (p l : List Char) (hp : ∀ a ∈ p, a ≠ c) :
    splitChar c (p ++ c :: l) = p :: splitChar c l := by
  induction p with
  | nil => simp [splitChar_cons_sep]
  | cons a p ih =>
    have ha : a ≠ c := hp a (by simp)
    have hr := ih (fun x hx => hp x (by simp [hx]))
    simp [splitChar, ha, hr]

theorem splitChar_joinChar (c : Char) (ps : List (List Char)) (hne : ps ≠ [])
    (hfree : ∀ p ∈ ps, ∀ a ∈ p, a ≠ c) : splitChar c (joinChar c ps) = ps := by
  induction ps with
  | nil => cases hne rfl
  | cons p rest ih =>
    cases rest with
    | nil => simpa [joinChar] using splitChar_single c p (hfree p (by simp))
    | cons q rest' =>
      have hj : joinChar c (p :: q :: rest') = p ++ c :: joinChar c (q :: rest') := rfl
      rw [hj, splitChar_append_sep c p _ (hfree p (by simp)),
        ih (by simp) (fun x hx => hfree x (by simp [hx]))]

theorem mem_splitChar_free (c : Char) :
    ∀ l : List Char, ∀ p ∈ splitChar c l, ∀ a ∈ p, a ≠ c := by
  intro l
  induction l with
  | nil =>
    intro p hp
    simp only [splitChar, List.mem_singleton] at hp
    simp [hp]
  | cons b rest ih =>
    intro p hp
    by_cases hb : b = c
    · rw [hb, splitChar_cons_sep] at hp
      rcases List.mem_cons.mp hp with h | h
      · simp [h]
      · exact ih p h
    · unfold splitChar at hp
      rw [if_neg hb] at hp
      cases hs : splitChar c rest with
      | nil => exact absurd hs (splitChar_ne_nil c rest)
      | cons hd tl =>
        rw [hs] at hp
        rcases List.mem_cons.mp hp with h | h
        · subst h
          intro a ha
          rcases List.mem_cons.mp ha with h' | h'
          · simpa [h'] using hb
          · exact ih hd (by simp [hs]) a h'
        · exact ih p (by simp [hs, h])

theorem string_mk_data (s : String) : String.mk s.data = s := rfl

theorem jsSplit_jsJoin (ps : List String) (hne : ps ≠ [])
    (hfree : ∀ p ∈ ps, ∀ a ∈ p.data, a ≠ comma) :
    jsSplit comma (jsJoin comma ps) = ps := by
  unfold jsSplit jsJoin
  have hdata : (String.mk (joinChar comma (ps.map String.data))).data
      = joinChar comma (ps.map String.data) := rfl
  rw [hdata, splitChar_joinChar comma (ps.map String.data)
    (by simpa using hne)
    (by
      intro p hp a ha
      rcases List.mem_map.mp hp with ⟨q, hq, rfl⟩
      exact hfree q hq a ha)]
  rw [List.map_map]
  have hfun : (String.mk ∘ String.data) = id := funext fun s => rfl
  rw [hfun, List.map_id]

theorem getUpgradedList_ne_nil (element : ElemState) :
    getUpgradedListOfElement_ element ≠ [] := by
  unfold getUpgradedListOfElement_
  cases element.dataUpgraded with
  | none => simp
  | some s =>
    unfold jsSplit
    simpa using splitChar_ne_nil comma s.data

theorem getUpgradedList_free (element : ElemState) :
    ∀ p ∈ getUpgradedListOfElement_ element, ∀ a ∈ p.data, a ≠ comma := by
  unfold getUpgradedListOfElement_
  cases element.dataUpgraded with
  | none =>
    intro p hp
    simp only [List.mem_singleton] at hp
    subst hp
    intro a ha
    simp [String.data] at ha
  | some s =>
    intro p hp a ha
    unfold jsSplit at hp
    rcases List.mem_map.mp hp with ⟨q, hq, rfl⟩
    exact mem_splitChar_free comma s.data q hq a ha

theorem spliceOne_neg_one (l : List α) : spliceOne l (-1) = l.dropLast := by
  simp only [spliceOne]
  cases l with
  | nil => rfl
  | cons a t =>
    have hs : (if (-1 : Int) < 0 then max (((a :: t).length : Int) + -1) 0
        else min (-1) ((a :: t).length : Int)) = ((a :: t).length : Int) - 1 := by
      rw [if_pos (by norm_num)]
      simp only [List.length_cons]
      omega
    rw [hs]
    have htn : (((a :: t).length : Int) - 1).toNat = (a :: t).length - 1 := by
      simp only [List.length_cons]
      omega
    rw [htn]
    have hdrop : (a :: t).drop ((a :: t).length - 1 + 1) = [] := by
      apply List.drop_eq_nil_of_le
      omega
    rw [hdrop, List.append_nil, List.dropLast_eq_take]

theorem indexOf?_append_singleton [BEq α] [LawfulBEq α] :
    ∀ (l : List α) (x : α), x ∉ l → (l ++ [x]).indexOf? x = some l.length
  | [], x, _ => by simp [List.indexOf?, List.findIdx?_cons]
  | a :: t, x, h => by
    have hax : (a == x) = false := by
      simp only [beq_eq_false_iff_ne]
      intro hh
      exact h (by simp [hh])
    have ht := indexOf?_append_singleton t x (fun hm => h (List.mem_cons_of_mem a hm))
    simp only [List.indexOf?] at ht
    simp only [List.cons_append, List.indexOf?, List.findIdx?_cons, hax, if_false,
      Bool.false_eq_true, List.findIdx?_succ, ht]
    simp

theorem jsIndexOf_append_singleton [BEq α] [LawfulBEq α] (l : List α) (x : α)
    (hx : x ∉ l) : jsIndexOf (l ++ [x]) x = (l.length : Int) := by
  unfold jsIndexOf
  rw [indexOf?_append_singleton l x hx]

theorem spliceOne_append_singleton (l : List α) (x : α) :
    spliceOne (l ++ [x]) (l.length : Int) = l := by
  simp only [spliceOne]
  have hs : (if (l.length : Int) < 0 then max (((l ++ [x]).length : Int) + (l.length : Int)) 0
      else min (l.length : Int) ((l ++ [x]).length : Int)) = (l.length : Int) := by
    rw [if_neg (by omega)]
    simp only [List.length_append, List.length_singleton]
    omega
  rw [hs]
  have htn : ((l.length : Int)).toNat = l.length := by omega
  rw [htn, List.take_left]
  have hdrop : (l ++ [x]).drop (l.length + 1) = [] := by
    apply List.drop_eq_nil_of_le
    simp
  rw [hdrop, List.append_nil]

/-! Lemmas about the registry store. -/

theorem findRegisteredClass_none_snd (name : String) :
    ∀ reg : List ComponentConfig, (findRegisteredClass_ name none reg).2 = reg
  | [] => rfl
  | item :: rest => by
    unfold findRegisteredClass_
    by_cases h : item.className = name
    · simp [h]
    · simp [h, findRegisteredClass_none_snd name rest]

theorem findRegisteredClass_none_fst (name : String) :
    ∀ (reg : List ComponentConfig) (cfg : ComponentConfig),
      (findRegisteredClass_ name none reg).1 = some cfg →
      cfg.className = name ∧ cfg ∈ reg
  | [], cfg => by simp [findRegisteredClass_]
  | item :: rest, cfg => by
    unfold findRegisteredClass_
    by_cases h : item.className = name
    · simp only [h, if_pos rfl]
      intro hc
      cases hc
      exact ⟨h, by simp⟩
    · simp only [if_neg h]
      intro hc
      have := findRegisteredClass_none_fst name rest cfg hc
      exact ⟨this.1, by simp [this.2]⟩

theorem findRegisteredClass_not_found (name : String) (o : Option ComponentConfig) :
    ∀ reg : List ComponentConfig, (∀ item ∈ reg, item.className ≠ name) →
      findRegisteredClass_ name o reg = (none, reg)
  | [], _ => rfl
  | item :: rest, h => by
    unfold findRegisteredClass_
    rw [if_neg (h item (by simp))]
    rw [findRegisteredClass_not_found name o rest (fun x hx => h x (by simp [hx]))]

theorem checkDuplicateRegistrations_ok (newConfig : ComponentConfig) :
    ∀ reg : List ComponentConfig,
      checkDuplicateRegistrations newConfig reg = .ok () →
      ∀ item ∈ reg, item.cssClass ≠ newConfig.cssClass ∧ item.className ≠ newConfig.className
  | [] => by simp
  | item :: rest => by
    unfold checkDuplicateRegistrations
    by_cases h1 : item.cssClass = newConfig.cssClass
    · simp [h1]
    · rw [if_neg h1]
      by_cases h2 : item.className = newConfig.className
      · simp [h2]
      · rw [if_neg h2]
        intro hok x hx
        rcases List.mem_cons.mp hx with rfl | hx'
        · exact ⟨h1, h2⟩
        · exact checkDuplicateRegistrations_ok newConfig rest hok x hx'

theorem checkDuplicateRegistrations_error_of_clash (newConfig : ComponentConfig) :
    ∀ reg : List ComponentConfig,
      (∃ d1 ∈ reg, d1.cssClass = newConfig.cssClass ∨ d1.className = newConfig.className) →
      ∃ msg, checkDuplicateRegistrations newConfig reg = .error msg := by
  intro reg
  induction reg with
  | nil => rintro ⟨d1, hd1, _⟩; cases hd1
  | cons item rest ih =>
    rintro ⟨d1, hd1, hclash⟩
    unfold checkDuplicateRegistrations
    by_cases h1 : item.cssClass = newConfig.cssClass
    · exact ⟨_, by rw [if_pos h1]⟩
    · rw [if_neg h1]
      by_cases h2 : item.className = newConfig.className
      · exact ⟨_, by rw [if_pos h2]⟩
      · rw [if_neg h2]
        rcases List.mem_cons.mp hd1 with rfl | hd1'
        · rcases hclash with hc | hc
          · exact absurd hc h1
          · exact absurd hc h2
        · exact ih ⟨d1, hd1', hclash⟩

/-! State helper lemmas. -/

@[simp] theorem dispatchEvent_dom (s : MdlState) (ev : EventRec) :
    (dispatchEvent s ev).dom = s.dom := rfl

@[simp] theorem dispatchEvent_registeredComponents (s : MdlState) (ev : EventRec) :
    (dispatchEvent s ev).registeredComponents = s.registeredComponents := rfl

@[simp] theorem dispatchEvent_createdComponents (s : MdlState) (ev : EventRec) :
    (dispatchEvent s ev).createdComponents = s.createdComponents := rfl

@[simp] theorem dispatchEvent_nextInstanceId (s : MdlState) (ev : EventRec) :
    (dispatchEvent s ev).nextInstanceId = s.nextInstanceId := rfl

@[simp] theorem dispatchEvent_events (s : MdlState) (ev : EventRec) :
    (dispatchEvent s ev).events = s.events ++ [ev] := rfl

@[simp] theorem setElem_dom_self (s : MdlState) (i : Nat) (e : ElemState) :
    ((setElem s i e).dom) i = e := by simp [setElem]

theorem setElem_dom_other (s : MdlState) (i : Nat) (e : ElemState) (j : Nat)
    (h : j ≠ i) : ((setElem s i e).dom) j = s.dom j := by simp [setElem, h]

@[simp] theorem setElem_registeredComponents (s : MdlState) (i : Nat) (e : ElemState) :
    (setElem s i e).registeredComponents = s.registeredComponents := rfl

@[simp] theorem setElem_createdComponents (s : MdlState) (i : Nat) (e : ElemState) :
    (setElem s i e).createdComponents = s.createdComponents := rfl

@[simp] theorem setElem_events (s : MdlState) (i : Nat) (e : ElemState) :
    (setElem s i e).events = s.events := rfl

@[simp] theorem setElem_nextInstanceId (s : MdlState) (i : Nat) (e : ElemState) :
    (setElem s i e).nextInstanceId = s.nextInstanceId := rfl

/-- The cancelable upgrading event fired at the start of `upgradeElementInternal`. -/
def upgradingEvent (e : Nat) : EventRec := createEvent_ e "mdl-componentupgrading" true true

/-- The non-cancelable upgraded event fired after each applied descriptor. -/
def upgradedEvent (e : Nat) : EventRec := createEvent_ e "mdl-componentupgraded" true false

/-- The non-cancelable downgraded event fired by `deconstructComponentInternal`. -/
def downgradedEvent (e : Nat) : EventRec := createEvent_ e "mdl-componentdowngraded" true false

/-- The widget instances the upgrade loop creates for element `e` from the supplied
descriptor list, with instance identities counting up from `startId`. -/
def mkInstances (e : Nat) : Nat → List ComponentConfig → List Component
  | _, [] => []
  | startId, cfg :: rest => ⟨startId, e, cfg⟩ :: mkInstances e (startId + 1) rest

/-! Characterization of one upgrade-loop iteration. -/

theorem upgradeStep_registeredComponents (e : Nat) (c : ComponentConfig)
    (ul : List String) (s : MdlState) :
    (upgradeStep e c ul s).registeredComponents = s.registeredComponents := by
  by_cases h : c.widget <;> simp [upgradeStep, setProp, setDataUpgraded, setElem, h]

theorem upgradeStep_createdComponents (e : Nat) (c : ComponentConfig)
    (ul : List String) (s : MdlState) :
    (upgradeStep e c ul s).createdComponents
      = s.createdComponents ++ [⟨s.nextInstanceId, e, c⟩] := by
  by_cases h : c.widget <;> simp [upgradeStep, setProp, setDataUpgraded, setElem, h]

theorem upgradeStep_nextInstanceId (e : Nat) (c : ComponentConfig)
    (ul : List String) (s : MdlState) :
    (upgradeStep e c ul s).nextInstanceId = s.nextInstanceId + 1 := by
  by_cases h : c.widget <;> simp [upgradeStep, setProp, setDataUpgraded, setElem, h]

theorem upgradeStep_events (e : Nat) (c : ComponentConfig)
    (ul : List String) (s : MdlState) :
    (upgradeStep e c ul s).events = s.events ++ [upgradedEvent e] := by
  by_cases h : c.widget <;> simp [upgradeStep, setProp, setDataUpgraded, setElem, upgradedEvent, h]

theorem upgradeStep_dom_other (e : Nat) (c : ComponentConfig)
    (ul : List String) (s : MdlState) (j : Nat) (hj : j ≠ e) :
    (upgradeStep e c ul s).dom j = s.dom j := by
  by_cases h : c.widget <;>
    simp [upgradeStep, setProp, setDataUpgraded, setElem, h, hj]

theorem upgradeStep_dom_shape (e : Nat) (c : ComponentConfig)
    (ul : List String) (s : MdlState) (j : Nat) :
    ((upgradeStep e c ul s).dom j).children = (s.dom j).children ∧
    ((upgradeStep e c ul s).dom j).classList = (s.dom j).classList ∧
    ((upgradeStep e c ul s).dom j).cancelUpgrading = (s.dom j).cancelUpgrading := by
  by_cases h : c.widget <;>
    by_cases hj : j = e <;>
    simp [upgradeStep, setProp, setDataUpgraded, setElem, h, hj]

theorem upgradeStep_dataUpgraded (e : Nat) (c : ComponentConfig)
    (ul : List String) (s : MdlState) :
    ((upgradeStep e c ul s).dom e).dataUpgraded
      = some (jsJoin comma (ul ++ [c.className])) := by
  by_cases h : c.widget <;>
    simp [upgradeStep, setProp, setDataUpgraded, setElem, h]

/-- Full characterization of a successful run of the upgrade loop: every entry is a
found descriptor, so the loop creates one tracked instance per descriptor in order,
fires one upgraded event per descriptor, rewrites the element's marker to the
upgraded list extended by all the descriptor class names, and touches nothing
else. -/
theorem upgradeLoop_all_some (e : Nat) :
    ∀ (cfgs : List ComponentConfig) (ul : List String) (s : MdlState),
    ∃ s', upgradeLoop e (cfgs.map some) ul s = .ok s' ∧
      s'.registeredComponents = s.registeredComponents ∧
      s'.createdComponents = s.createdComponents ++ mkInstances e s.nextInstanceId cfgs ∧
      s'.nextInstanceId = s.nextInstanceId + cfgs.length ∧
      s'.events = s.events ++ List.replicate cfgs.length (upgradedEvent e) ∧
      (∀ j, j ≠ e → s'.dom j = s.dom j) ∧
      (∀ j, (s'.dom j).children = (s.dom j).children ∧
            (s'.dom j).classList = (s.dom j).classList ∧
            (s'.dom j).cancelUpgrading = (s.dom j).cancelUpgrading) ∧
      (s'.dom e).dataUpgraded =
        (if cfgs.isEmpty then (s.dom e).dataUpgraded
         else some (jsJoin comma (ul ++ cfgs.map ComponentConfig.className)))
  | [], ul, s =>
    ⟨s, rfl, rfl, by simp [mkInstances], by simp, by simp, fun j _ => rfl,
      fun j => ⟨rfl, rfl, rfl⟩, by simp⟩
  | cfg :: rest, ul, s => by
    obtain ⟨s', hrun, hreg, hcreated, hnext, hevents, hother, hshape, hmarker⟩ :=
      upgradeLoop_all_some e rest (ul ++ [cfg.className]) (upgradeStep e cfg ul s)
    refine ⟨s', ?_, ?_, ?_, ?_, ?_, ?_, ?_, ?_⟩
    · simpa [upgradeLoop] using hrun
    · rw [hreg, upgradeStep_registeredComponents]
    · rw [hcreated, upgradeStep_createdComponents, upgradeStep_nextInstanceId]
      simp [mkInstances]
    · rw [hnext, upgradeStep_nextInstanceId]
      simp only [List.length_cons]
      omega
    · rw [hevents, upgradeStep_events]
      simp [List.replicate_succ, List.append_assoc]
    · intro j hj
      rw [hother j hj, upgradeStep_dom_other e cfg ul s j hj]
    · intro j
      obtain ⟨h1, h2, h3⟩ := hshape j
      obtain ⟨g1, g2, g3⟩ := upgradeStep_dom_shape e cfg ul s j
      exact ⟨h1.trans g1, h2.trans g2, h3.trans g3⟩
    · rw [hmarker]
      cases rest with
      | nil => simp [upgradeStep_dataUpgraded]
      | cons r rs => simp [List.append_assoc]

/-! Characterization of `upgradeElementInternal`. -/

/-- When a listener on the element cancels the upgrading event, the call returns
immediately: the only state change is the dispatched upgrading event itself. -/
theorem upgradeElement_canceled (e : Nat) (opt : Option String) (s : MdlState)
    (h : (s.dom e).cancelUpgrading = true) :
    upgradeElementInternal e opt s = .ok (dispatchEvent s (upgradingEvent e)) := by
  simp [upgradeElementInternal, defaultPrevented, upgradingEvent, createEvent_, h]

/-- When the upgrading event is not canceled, the call runs the upgrade loop on the
selected classes, starting from the state with the upgrading event dispatched. -/
theorem upgradeElement_not_canceled (e : Nat) (opt : Option String) (s : MdlState)
    (h : (s.dom e).cancelUpgrading = false) :
    upgradeElementInternal e opt s =
      upgradeLoop e (selectClassesToUpgrade s.registeredComponents (s.dom e) opt)
        (getUpgradedListOfElement_ (s.dom e)) (dispatchEvent s (upgradingEvent e)) := by
  simp [upgradeElementInternal, defaultPrevented, upgradingEvent, createEvent_, h]

/-- Selection with a nonempty `jsClass`: skip entirely when the element is already
upgraded for it, otherwise push the single lookup result. -/
theorem selectClasses_named (reg : List ComponentConfig) (element : ElemState)
    (n : String) (hn : n ≠ "") :
    selectClassesToUpgrade reg element (some n) =
      (if isElementUpgraded_ element n then []
       else [(findRegisteredClass_ n none reg).1]) := by
  simp only [selectClassesToUpgrade, if_neg hn]
  cases h : isElementUpgraded_ element n <;> simp [h]

/-- A class name freshly appended to the marker is reported as upgraded by
`isElementUpgraded_`: what `jsJoin` writes, `jsSplit` reads back, because every
entry the handler writes into the marker is itself a piece of a previous split or
a registered class name, so contains no comma. -/
theorem isElementUpgraded_after_append (element : ElemState) (parts : List String)
    (n : String) (hfree : ∀ p ∈ parts, ∀ a ∈ p.data, a ≠ comma)
    (hnfree : ∀ a ∈ n.data, a ≠ comma)
    (h : element.dataUpgraded = some (jsJoin comma (parts ++ [n]))) :
    isElementUpgraded_ element n = true := by
  unfold isElementUpgraded_ getUpgradedListOfElement_
  rw [h]
  show (jsSplit comma (jsJoin comma (parts ++ [n]))).contains n = true
  rw [jsSplit_jsJoin (parts ++ [n]) (by simp)
    (by
      intro p hp
      rcases List.mem_append.mp hp with h' | h'
      · exact hfree p h'
      · simp only [List.mem_singleton] at h'
        subst h'
        exact hnfree)]
  simp

/-- A successful named upgrade: the element is not yet upgraded for the (nonempty)
name `n`, no listener cancels, and the registry lookup finds `cfg`.  Exactly one
instance is created and tracked, the marker gains `cfg.className` at the end, the
upgrading and upgraded events fire, and nothing else changes. -/
theorem upgradeElement_named_ok (e : Nat) (n : String) (s : MdlState)
    (cfg : ComponentConfig)
    (hn : n ≠ "")
    (hcancel : (s.dom e).cancelUpgrading = false)
    (hnotup : isElementUpgraded_ (s.dom e) n = false)
    (hfind : (findRegisteredClass_ n none s.registeredComponents).1 = some cfg) :
    ∃ s', upgradeElementInternal e (some n) s = .ok s' ∧
      s'.registeredComponents = s.registeredComponents ∧
      s'.createdComponents
        = s.createdComponents ++ [⟨s.nextInstanceId, e, cfg⟩] ∧
      s'.nextInstanceId = s.nextInstanceId + 1 ∧
      s'.events = s.events ++ [upgradingEvent e, upgradedEvent e] ∧
      (∀ j, j ≠ e → s'.dom j = s.dom j) ∧
      (∀ j, (s'.dom j).children = (s.dom j).children ∧
            (s'.dom j).classList = (s.dom j).classList ∧
            (s'.dom j).cancelUpgrading = (s.dom j).cancelUpgrading) ∧
      (s'.dom e).dataUpgraded
        = some (jsJoin comma (getUpgradedListOfElement_ (s.dom e) ++ [cfg.className])) := by
  rw [upgradeElement_not_canceled e (some n) s hcancel,
    selectClasses_named _ _ _ hn, if_neg (by simp [hnotup]), hfind]
  obtain ⟨s', hrun, hreg, hcreated, hnext, hevents, hother, hshape, hmarker⟩ :=
    upgradeLoop_all_some e [cfg] (getUpgradedListOfElement_ (s.dom e))
      (dispatchEvent s (upgradingEvent e))
  refine ⟨s', ?_, ?_, ?_, ?_, ?_, ?_, ?_, ?_⟩
  · simpa using hrun
  · simpa using hreg
  · simpa [mkInstances] using hcreated
  · simpa using hnext
  · rw [hevents]
    simp
  · intro j hj
    rw [hother j hj]
    rfl
  · intro j
    simpa using hshape j
  · simpa using hmarker

/-- A named upgrade whose lookup fails: the element is not yet upgraded for the
(nonempty) name `n`, no listener cancels, and `n` is not registered; the call
throws the fatal error after having dispatched only the upgrading event. -/
theorem upgradeElement_named_missing (e : Nat) (n : String) (s : MdlState)
    (hn : n ≠ "")
    (hcancel : (s.dom e).cancelUpgrading = false)
    (hnotup : isElementUpgraded_ (s.dom e) n = false)
    (hfind : (findRegisteredClass_ n none s.registeredComponents).1 = none) :
    upgradeElementInternal e (some n) s =
      .error ("Unable to find a registered component for the given class.",
        dispatchEvent s (upgradingEvent e)) := by
  rw [upgradeElement_not_canceled e (some n) s hcancel,
    selectClasses_named _ _ _ hn, if_neg (by simp [hnotup]), hfind]
  rfl

/-- A named upgrade for a name the element is already marked upgraded for: the call
returns normally having dispatched only the upgrading event, whether or not the
name is registered. -/
theorem upgradeElement_named_skip (e : Nat) (n : String) (s : MdlState)
    (hn : n ≠ "")
    (hup : isElementUpgraded_ (s.dom e) n = true) :
    upgradeElementInternal e (some n) s = .ok (dispatchEvent s (upgradingEvent e)) := by
  cases hcancel : (s.dom e).cancelUpgrading with
  | true => exact upgradeElement_canceled e (some n) s hcancel
  | false =>
    rw [upgradeElement_not_canceled e (some n) s hcancel,
      selectClasses_named _ _ _ hn, if_pos hup]
    rfl

/-- In a fresh (attribute-less) marker, only the empty string is reported as
upgraded. -/
theorem isElementUpgraded_fresh (element : ElemState)
    (hfresh : element.dataUpgraded = none) (n : String) (hn : n ≠ "") :
    isElementUpgraded_ element n = false := by
  unfold isElementUpgraded_ getUpgradedListOfElement_
  rw [hfresh]
  simpa using fun h => hn h

/-- The registry scan collects, in registration order, exactly the descriptors
whose marker class the element carries, provided the element is not already
upgraded for any of them and the registry has no duplicate entries (which
`registerInternal` guarantees). -/
theorem scanMatching_go (element : ElemState) :
    ∀ (reg : List ComponentConfig) (acc : List (Option ComponentConfig)),
    reg.Nodup →
    (∀ c ∈ reg, isElementUpgraded_ element c.className = false) →
    (∀ c ∈ reg, some c ∉ acc) →
    reg.foldl
      (fun classesToUpgrade component =>
        if element.classList.contains component.cssClass
            && !(classesToUpgrade.contains (some component))
            && !(isElementUpgraded_ element component.className)
        then classesToUpgrade ++ [some component]
        else classesToUpgrade)
      acc
    = acc ++ (reg.filter (fun c => element.classList.contains c.cssClass)).map some := by
  intro reg
  induction reg with
  | nil => intro acc _ _ _; simp
  | cons c rest ih =>
    intro acc hnodup hnot hacc
    have hnotc : isElementUpgraded_ element c.className = false := hnot c (by simp)
    have haccm : some c ∉ acc := hacc c (by simp)
    rw [List.foldl_cons]
    cases hcss : element.classList.contains c.cssClass with
    | false =>
      have hmem : ¬ c.cssClass ∈ element.classList := by
        simpa [List.contains, List.elem_eq_mem] using hcss
      rw [if_neg (by simp [hcss])]
      rw [ih acc (List.nodup_cons.mp hnodup).2
        (fun x hx => hnot x (by simp [hx]))
        (fun x hx => hacc x (by simp [hx]))]
      simp [List.filter_cons, hmem]
    | true =>
      have hmem : c.cssClass ∈ element.classList := by
        simpa [List.contains, List.elem_eq_mem] using hcss
      rw [if_pos (by simp [hcss, hnotc, haccm])]
      rw [ih (acc ++ [some c]) (List.nodup_cons.mp hnodup).2
        (fun x hx => hnot x (by simp [hx]))
        (fun x hx => by
          simp only [List.mem_append, List.mem_singleton, Option.some.injEq, not_or]
          refine ⟨hacc x (by simp [hx]), ?_⟩
          intro h
          exact absurd (h ▸ hx) (List.nodup_cons.mp hnodup).1)]
      simp [List.filter_cons, hmem]

theorem scanMatching_eq (reg : List ComponentConfig) (element : ElemState)
    (hnodup : reg.Nodup)
    (hnot : ∀ c ∈ reg, isElementUpgraded_ element c.className = false) :
    scanMatchingComponents reg element =
      (reg.filter (fun c => element.classList.contains c.cssClass)).map some := by
  unfold scanMatchingComponents
  simpa using scanMatching_go element reg [] hnodup hnot (by simp)

/-- The descriptors of the registry whose marker class element `e` currently
carries, in registration order. -/
def matchingComponents (s : MdlState) (e : Nat) : List ComponentConfig :=
  s.registeredComponents.filter (fun c => (s.dom e).classList.contains c.cssClass)

/-- A successful scan upgrade of a fresh element (no marker attribute, no
cancelling listener, well-formed registry): one instance is created per matching
descriptor, in registration order, the upgrading event is followed by one upgraded
event per descriptor, the marker lists exactly the applied names, and no other
element is touched. -/
theorem upgradeElement_scan_ok (e : Nat) (s : MdlState)
    (hcancel : (s.dom e).cancelUpgrading = false)
    (hfresh : (s.dom e).dataUpgraded = none)
    (hnodup : s.registeredComponents.Nodup)
    (hnames : ∀ c ∈ s.registeredComponents, c.className ≠ "") :
    ∃ s', upgradeElementInternal e none s = .ok s' ∧
      s'.registeredComponents = s.registeredComponents ∧
      s'.createdComponents
        = s.createdComponents ++ mkInstances e s.nextInstanceId (matchingComponents s e) ∧
      s'.nextInstanceId = s.nextInstanceId + (matchingComponents s e).length ∧
      s'.events = s.events ++ upgradingEvent e ::
        List.replicate (matchingComponents s e).length (upgradedEvent e) ∧
      (∀ j, j ≠ e → s'.dom j = s.dom j) ∧
      (∀ j, (s'.dom j).children = (s.dom j).children ∧
            (s'.dom j).classList = (s.dom j).classList ∧
            (s'.dom j).cancelUpgrading = (s.dom j).cancelUpgrading) ∧
      (s'.dom e).dataUpgraded =
        (if (matchingComponents s e).isEmpty then none
         else some (jsJoin comma
           ("" :: (matchingComponents s e).map ComponentConfig.className))) := by
  rw [upgradeElement_not_canceled e none s hcancel]
  have hsel : selectClassesToUpgrade s.registeredComponents (s.dom e) none
      = (matchingComponents s e).map some := by
    show scanMatchingComponents s.registeredComponents (s.dom e)
      = (matchingComponents s e).map some
    exact scanMatching_eq _ _ hnodup
      (fun c hc => isElementUpgraded_fresh _ hfresh _ (hnames c hc))
  have hlist : getUpgradedListOfElement_ (s.dom e) = [""] := by
    unfold getUpgradedListOfElement_
    rw [hfresh]
  rw [hsel, hlist]
  obtain ⟨s', hrun, hreg, hcreated, hnext, hevents, hother, hshape, hmarker⟩ :=
    upgradeLoop_all_some e (matchingComponents s e) [""]
      (dispatchEvent s (upgradingEvent e))
  refine ⟨s', hrun, by simpa using hreg, by simpa using hcreated, by simpa using hnext,
    ?_, ?_, ?_, ?_⟩
  · rw [hevents]
    simp
  · intro j hj
    rw [hother j hj]
    rfl
  · intro j
    simpa using hshape j
  · rw [hmarker]
    cases hm : (matchingComponents s e).isEmpty with
    | true =>
      simp only [if_pos rfl]
      show (s.dom e).dataUpgraded = none
      exact hfresh
    | false => rfl

/-! Characterization of `deconstructComponentInternal`. -/

/-- Downgrading a tracked component: the component is removed from the tracking
list, and — because the stored config record has no `classAsString` field, so the
looked-up name is `undefined` and `indexOf` yields `-1` — `splice(-1, 1)` removes
the LAST entry of the marker list, whatever it is.  Stated for a marker written by
the handler (a join of comma-free parts ending in some entry `n`). -/
theorem deconstruct_removes_last (s : MdlState) (inst : Component)
    (old : List Component) (parts : List String) (n : String)
    (hcreated : s.createdComponents = old ++ [inst])
    (hnotin : inst ∉ old)
    (hfree : ∀ p ∈ parts, ∀ a ∈ p.data, a ≠ comma)
    (hnfree : ∀ a ∈ n.data, a ≠ comma)
    (hmark : (s.dom inst.elementId).dataUpgraded = some (jsJoin comma (parts ++ [n]))) :
    ∃ s₂, deconstructComponentInternal inst s = s₂ ∧
      s₂.createdComponents = old ∧
      s₂.registeredComponents = s.registeredComponents ∧
      s₂.nextInstanceId = s.nextInstanceId ∧
      s₂.events = s.events ++ [downgradedEvent inst.elementId] ∧
      (∀ j, j ≠ inst.elementId → s₂.dom j = s.dom j) ∧
      (∀ j, (s₂.dom j).children = (s.dom j).children ∧
            (s₂.dom j).classList = (s.dom j).classList ∧
            (s₂.dom j).cancelUpgrading = (s.dom j).cancelUpgrading) ∧
      (s₂.dom inst.elementId).dataUpgraded = some (jsJoin comma parts) := by
  have hidx : jsIndexOf s.createdComponents inst = (old.length : Int) := by
    rw [hcreated]
    exact jsIndexOf_append_singleton old inst hnotin
  have hsplice : spliceOne s.createdComponents (jsIndexOf s.createdComponents inst)
      = old := by
    rw [hidx, hcreated]
    exact spliceOne_append_singleton old inst
  have hsplit : jsSplit comma (jsJoin comma (parts ++ [n])) = parts ++ [n] :=
    jsSplit_jsJoin (parts ++ [n]) (by simp)
      (by
        intro p hp
        rcases List.mem_append.mp hp with h' | h'
        · exact hfree p h'
        · simp only [List.mem_singleton] at h'
          subst h'
          exact hnfree)
  have hdrop : spliceOne (parts ++ [n]) (-1) = parts := by
    rw [spliceOne_neg_one]
    exact List.dropLast_concat
  refine ⟨_, rfl, ?_, ?_, ?_, ?_, ?_, ?_, ?_⟩
  · simp [deconstructComponentInternal, setDataUpgraded, setElem, dispatchEvent,
      hsplice]
  · simp [deconstructComponentInternal, setDataUpgraded, setElem, dispatchEvent]
  · simp [deconstructComponentInternal, setDataUpgraded, setElem, dispatchEvent]
  · simp [deconstructComponentInternal, setDataUpgraded, setElem, dispatchEvent,
      downgradedEvent, createEvent_]
  · intro j hj
    simp [deconstructComponentInternal, setDataUpgraded, setElem, dispatchEvent,
      hj]
  · intro j
    by_cases hj : j = inst.elementId <;>
      simp [deconstructComponentInternal, setDataUpgraded, setElem, dispatchEvent,
        hj]
  · simp only [deconstructComponentInternal, setDataUpgraded, setElem, dispatchEvent]
    simp only [hsplice, hmark, Option.getD_some, configClassAsString, jsIndexOfOpt,
      hsplit, hdrop]
    simp

/-- The number of tracked instances for the pair `(e, n)`: components in
`createdComponents_` whose element is `e` and whose stored descriptor has class
name `n`. -/
def countInstances (s : MdlState) (e : Nat) (n : String) : Nat :=
  (s.createdComponents.filter
    (fun c => c.elementId == e && c.config.className == n)).length

/-- The state a fallible operation left behind, whether it returned or threw. -/
def stateOfResult : Except (String × MdlState) MdlState → MdlState
  | .ok s => s
  | .error em => em.2

/-! Concrete fixtures used by witnesses and counterexamples. -/

/-- A registered descriptor with logical name `LogicalA` and marker class `a`. -/
def cfgA : ComponentConfig :=
  { classConstructor := 1, className := "LogicalA", cssClass := "a"
    widget := true, callbacks := [] }

/-- A registered descriptor with logical name `LogicalB` and marker class `b`. -/
def cfgB : ComponentConfig :=
  { classConstructor := 2, className := "LogicalB", cssClass := "b"
    widget := true, callbacks := [] }

/-- An element carrying no classes and no marker. -/
def blankElem : ElemState :=
  { classList := [], dataUpgraded := none, children := [], props := []
    cancelUpgrading := false }

/-- A parent element of marker class `a` with children `1` and `2`. -/
def elemA : ElemState :=
  { classList := ["a"], dataUpgraded := none, children := [1, 2], props := []
    cancelUpgrading := false }

/-- A leaf element of marker class `b`. -/
def elemB : ElemState :=
  { classList := ["b"], dataUpgraded := none, children := [], props := []
    cancelUpgrading := false }

/-- A leaf element carrying both marker classes `a` and `b`. -/
def elemAB : ElemState :=
  { classList := ["a", "b"], dataUpgraded := none, children := [], props := []
    cancelUpgrading := false }

/-- A demo document: element `0` is the parent of elements `1` and `2`. -/
def demoDom : Nat → ElemState :=
  fun j => if j = 0 then elemA else if j = 1 then elemB
    else if j = 2 then elemAB else blankElem

/-- A demo handler state with `cfgA` and `cfgB` registered and nothing upgraded. -/
def demoState : MdlState :=
  { registeredComponents := [cfgA, cfgB], createdComponents := [], dom := demoDom
    events := [], nextInstanceId := 0 }

/-- An element whose marker already lists the (unregistered) name `X`. -/
def elemMarkedX : ElemState :=
  { classList := [], dataUpgraded := some ",X", children := [], props := []
    cancelUpgrading := false }

/-- A state with an empty registry whose only interesting element is marked `X`. -/
def stateMarkedX : MdlState :=
  { registeredComponents := [], createdComponents := []
    dom := fun _ => elemMarkedX, events := [], nextInstanceId := 0 }

/-! The claims. -/

/-- C3: for every registered descriptor `d1`, a `register` call whose marker class
reuses `d1`'s marker class or whose logical name reuses `d1`'s logical name raises
a fatal error, and the failed call leaves the registry unchanged (the error carries
the registry exactly as it was before the call). -/
theorem claim_register_duplicate_fatal (reg : List ComponentConfig)
    (config : ComponentConfigPublic) (d1 : ComponentConfig)
    (hd1 : d1 ∈ reg)
    (hclash : config.cssClass = d1.cssClass ∨ config.classAsString = d1.className) :
    ∃ msg, registerInternal config reg = .error (msg, reg) := by
  have hclash' : d1.cssClass = (newConfigOf config).cssClass ∨
      d1.className = (newConfigOf config).className := by
    rcases hclash with h | h
    · exact Or.inl h.symm
    · exact Or.inr h.symm
  obtain ⟨msg, hmsg⟩ :=
    checkDuplicateRegistrations_error_of_clash (newConfigOf config) reg
      ⟨d1, hd1, hclash'⟩
  exact ⟨msg, by simp only [registerInternal, hmsg]⟩

/-- A registration that reuses `cfgA`'s marker class `a` under a new logical name. -/
def pubDupCss : ComponentConfigPublic :=
  { constructorRef := 9, constructorHasConfigProperty := false
    classAsString := "LogicalC", cssClass := "a", widget := none }

/-- Witness for C3: re-registering marker class `a` next to `cfgA` fails and the
registry of size 1 is unchanged. -/
theorem claim_register_duplicate_fatal_witness :
    ∃ msg, registerInternal pubDupCss [cfgA] = .error (msg, [cfgA]) :=
  claim_register_duplicate_fatal [cfgA] pubDupCss cfgA (by simp) (Or.inl rfl)

/-- A registration reusing `cfgA`'s logical name with a different marker class —
the exact scenario the spec claims reaches the replace-in-place path. -/
def pubSameName : ComponentConfigPublic :=
  { constructorRef := 9, constructorHasConfigProperty := false
    classAsString := "LogicalA", cssClass := "a2", widget := none }

/-- Counterexample for C8: re-registering the logical name `LogicalA` with a fresh
marker class does not succeed and does not overwrite the slot — the duplicate scan
throws first, leaving the registry unchanged, so the replace-in-place path is not
reached. -/
theorem c8_reregister_same_name_fails :
    registerInternal pubSameName [cfgA]
      = .error ("The provided className has already been registered", [cfgA]) := rfl

/-- C8 (amended): the replace-in-place branch of `register` is dead code — the
duplicate scan raises a fatal error on any logical-name reuse before the lookup
with replacement runs, so every successful `register` call appends the new
descriptor at the end and never overwrites a slot. -/
theorem claim_register_success_appends (config : ComponentConfigPublic)
    (reg reg' : List ComponentConfig)
    (h : registerInternal config reg = .ok reg') :
    reg' = reg ++ [newConfigOf config] := by
  simp only [registerInternal] at h
  cases hchk : checkDuplicateRegistrations (newConfigOf config) reg with
  | error msg => rw [hchk] at h; cases h
  | ok u =>
    cases u
    rw [hchk] at h
    by_cases hc : config.constructorHasConfigProperty
    · rw [if_pos hc] at h; cases h
    · rw [if_neg hc] at h
      have hnone :=
        findRegisteredClass_not_found config.classAsString (some (newConfigOf config))
          reg
          (fun item hi =>
            (checkDuplicateRegistrations_ok (newConfigOf config) reg hchk item hi).2)
      rw [hnone] at h
      simpa [eq_comm] using h

/-- A fresh registration with logical name `LogicalC` and marker class `c`. -/
def pubFresh : ComponentConfigPublic :=
  { constructorRef := 3, constructorHasConfigProperty := false
    classAsString := "LogicalC", cssClass := "c", widget := none }

/-- Witness for C8 (amended): a successful registration next to `cfgA` appends. -/
theorem claim_register_success_appends_witness :
    registerInternal pubFresh [cfgA] = .ok [cfgA, newConfigOf pubFresh] ∧
    [cfgA, newConfigOf pubFresh] = [cfgA] ++ [newConfigOf pubFresh] :=
  ⟨rfl, claim_register_success_appends pubFresh [cfgA] [cfgA, newConfigOf pubFresh] rfl⟩

/-- C9: the already-upgraded skip is decided before the registry is consulted —
for every element whose marker already lists the (nonempty) name `n`,
`upgradeElement(e, n)` returns normally with only the upgrading event dispatched,
with no hypothesis at all about `n` being registered. -/
theorem claim_already_upgraded_skips_before_lookup (s : MdlState) (e : Nat)
    (n : String) (hn : n ≠ "")
    (hup : isElementUpgraded_ (s.dom e) n = true) :
    upgradeElementInternal e (some n) s = .ok (dispatchEvent s (upgradingEvent e)) :=
  upgradeElement_named_skip e n s hn hup

/-- Witness for C9: element marked `,X` with an empty registry; upgrading for the
unregistered name `X` returns normally. -/
theorem claim_already_upgraded_skips_before_lookup_witness :
    upgradeElementInternal 0 (some "X") stateMarkedX
      = .ok (dispatchEvent stateMarkedX (upgradingEvent 0)) :=
  claim_already_upgraded_skips_before_lookup stateMarkedX 0 "X" (by decide) rfl

/-- Counterexample for C7: a call `upgradeElement(e, n)` with `n = "X"` not
registered (the registry is empty) that does NOT raise an error — the element is
already marked upgraded for `X`, and the skip wins over the failed lookup, so the
call returns `ok`. -/
theorem c7_already_marked_no_error :
    (upgradeElementInternal 0 (some "X") stateMarkedX).isOk = true := rfl

/-- C7 (amended): `upgradeElement(e, n)` with an unregistered (nonempty) name `n`
raises the fatal error "Unable to find a registered component for the given
class." provided the element is not already marked upgraded for `n` and no
listener cancels the upgrading event (in those two cases the call instead returns
normally without doing anything). -/
theorem claim_unregistered_name_fatal (s : MdlState) (e : Nat) (n : String)
    (hn : n ≠ "")
    (hcancel : (s.dom e).cancelUpgrading = false)
    (hnotup : isElementUpgraded_ (s.dom e) n = false)
    (hfind : (findRegisteredClass_ n none s.registeredComponents).1 = none) :
    upgradeElementInternal e (some n) s =
      .error ("Unable to find a registered component for the given class.",
        dispatchEvent s (upgradingEvent e)) :=
  upgradeElement_named_missing e n s hn hcancel hnotup hfind

/-- Witness for C7 (amended): upgrading element `3` of the demo state for the
unregistered name `Nope` throws the fatal error. -/
theorem claim_unregistered_name_fatal_witness :
    upgradeElementInternal 3 (some "Nope") demoState =
      .error ("Unable to find a registered component for the given class.",
        dispatchEvent demoState (upgradingEvent 3)) :=
  claim_unregistered_name_fatal demoState 3 "Nope" (by decide) rfl rfl rfl

/-- The event trace of the upgrade loop only ever grows. -/
theorem upgradeLoop_events_extend (e : Nat) :
    ∀ (list : List (Option ComponentConfig)) (ul : List String) (s : MdlState),
    ∃ t, (stateOfResult (upgradeLoop e list ul s)).events = s.events ++ t
  | [], _, s => ⟨[], by simp [upgradeLoop, stateOfResult]⟩
  | none :: _, _, s => ⟨[], by simp [upgradeLoop, stateOfResult]⟩
  | some c :: rest, ul, s => by
    obtain ⟨t, ht⟩ :=
      upgradeLoop_events_extend e rest (ul ++ [c.className]) (upgradeStep e c ul s)
    refine ⟨upgradedEvent e :: t, ?_⟩
    show (stateOfResult (upgradeLoop e (rest) (ul ++ [c.className])
      (upgradeStep e c ul s))).events = s.events ++ upgradedEvent e :: t
    rw [ht, upgradeStep_events]
    simp

/-- C10: on every call, `upgradeElement` dispatches the cancelable
`mdl-componentupgrading` event first — before the marker is read and before any
descriptor is selected — so the trace of every call, returning or throwing,
upgraded or not, matching or not, extends the previous trace with that event in
front of whatever else happens. -/
theorem claim_upgrading_event_always_first (s : MdlState) (e : Nat)
    (optJsClass : Option String) :
    ∃ tail, (stateOfResult (upgradeElementInternal e optJsClass s)).events
      = s.events ++ upgradingEvent e :: tail := by
  cases hcancel : (s.dom e).cancelUpgrading with
  | true =>
    rw [upgradeElement_canceled e optJsClass s hcancel]
    exact ⟨[], by simp [stateOfResult]⟩
  | false =>
    rw [upgradeElement_not_canceled e optJsClass s hcancel]
    obtain ⟨t, ht⟩ := upgradeLoop_events_extend e
      (selectClassesToUpgrade s.registeredComponents (s.dom e) optJsClass)
      (getUpgradedListOfElement_ (s.dom e)) (dispatchEvent s (upgradingEvent e))
    refine ⟨t, ?_⟩
    rw [ht]
    simp

/-- C5: cancelling the upgrading event is atomic — the call returns `ok` with the
tracked instances, the whole document (markers included) and everything except the
event trace unchanged, only the upgrading event itself having fired; and inside an
`upgradeElements` batch, a cancelled (childless) element is simply skipped, the
remaining elements being processed exactly as they would be. -/
theorem claim_upgrading_cancel_atomic (s : MdlState) (e : Nat)
    (optJsClass : Option String) (fuel : Nat) (rest : List Nat)
    (hcancel : (s.dom e).cancelUpgrading = true) :
    upgradeElementInternal e optJsClass s = .ok (dispatchEvent s (upgradingEvent e)) ∧
    (dispatchEvent s (upgradingEvent e)).createdComponents = s.createdComponents ∧
    (dispatchEvent s (upgradingEvent e)).dom = s.dom ∧
    (dispatchEvent s (upgradingEvent e)).events = s.events ++ [upgradingEvent e] ∧
    ((s.dom e).children = [] →
      upgradeElementsInternal fuel (e :: rest) s
        = upgradeElementsInternal fuel rest (dispatchEvent s (upgradingEvent e))) := by
  refine ⟨upgradeElement_canceled e optJsClass s hcancel, rfl, rfl, rfl, ?_⟩
  intro hleaf
  have hrw := upgradeElement_canceled e none s hcancel
  simp only [upgradeElementsInternal, hrw, dispatchEvent_dom, hleaf]
  simp

/-- An element of marker class `b` whose listener cancels the upgrading event. -/
def elemCancelB : ElemState :=
  { classList := ["b"], dataUpgraded := none, children := [], props := []
    cancelUpgrading := true }

/-- A state where element `5` cancels its upgrade and element `1` does not. -/
def stateWithCancel : MdlState :=
  { registeredComponents := [cfgA, cfgB], createdComponents := []
    dom := fun j => if j = 5 then elemCancelB else demoDom j
    events := [], nextInstanceId := 0 }

/-- Witness for C5: in `stateWithCancel`, element `5` cancels; its upgrade is a
pure event dispatch and the batch `[5, 1]` reduces to the batch `[1]`. -/
theorem claim_upgrading_cancel_atomic_witness :
    upgradeElementInternal 5 none stateWithCancel
      = .ok (dispatchEvent stateWithCancel (upgradingEvent 5)) ∧
    (dispatchEvent stateWithCancel (upgradingEvent 5)).createdComponents
      = stateWithCancel.createdComponents ∧
    (dispatchEvent stateWithCancel (upgradingEvent 5)).dom = stateWithCancel.dom ∧
    (dispatchEvent stateWithCancel (upgradingEvent 5)).events
      = stateWithCancel.events ++ [upgradingEvent 5] ∧
    ((stateWithCancel.dom 5).children = [] →
      upgradeElementsInternal 4 [5, 1] stateWithCancel
        = upgradeElementsInternal 4 [1]
            (dispatchEvent stateWithCancel (upgradingEvent 5))) :=
  claim_upgrading_cancel_atomic stateWithCancel 5 none 4 [1] rfl

/-- C4: upgrading is idempotent per `(element, logical name)` pair — once a first
`upgradeElement(e, n)` has succeeded and created the single tracked instance for
`(e, n)`, a second identical call returns having dispatched only the upgrading
event: no new instance, instance count still `1`, the document (marker included)
untouched. -/
theorem claim_upgrade_idempotent (s : MdlState) (e : Nat) (n : String)
    (cfg : ComponentConfig)
    (hn : n ≠ "")
    (hnfree : ∀ a ∈ n.data, a ≠ comma)
    (hcancel : (s.dom e).cancelUpgrading = false)
    (hnotup : isElementUpgraded_ (s.dom e) n = false)
    (hfind : (findRegisteredClass_ n none s.registeredComponents).1 = some cfg)
    (hcount : countInstances s e n = 0) :
    ∃ s1, upgradeElementInternal e (some n) s = .ok s1 ∧
      countInstances s1 e n = 1 ∧
      isElementUpgraded_ (s1.dom e) n = true ∧
      upgradeElementInternal e (some n) s1
        = .ok (dispatchEvent s1 (upgradingEvent e)) ∧
      (dispatchEvent s1 (upgradingEvent e)).createdComponents
        = s1.createdComponents ∧
      (dispatchEvent s1 (upgradingEvent e)).dom = s1.dom ∧
      countInstances (dispatchEvent s1 (upgradingEvent e)) e n = 1 := by
  have hcn : cfg.className = n :=
    (findRegisteredClass_none_fst n s.registeredComponents cfg hfind).1
  obtain ⟨s1, hrun, hreg, hcreated, hnext, hevents, hother, hshape, hmarker⟩ :=
    upgradeElement_named_ok e n s cfg hn hcancel hnotup hfind
  have hfilter : s.createdComponents.filter
      (fun c => c.elementId == e && c.config.className == n) = [] := by
    have := hcount
    unfold countInstances at this
    exact List.length_eq_zero.mp this
  have hcount1 : countInstances s1 e n = 1 := by
    unfold countInstances
    rw [hcreated, List.filter_append, hfilter]
    simp [hcn]
  have hupg1 : isElementUpgraded_ (s1.dom e) n = true := by
    refine isElementUpgraded_after_append (s1.dom e)
      (getUpgradedListOfElement_ (s.dom e)) n (getUpgradedList_free (s.dom e))
      hnfree ?_
    rw [hmarker, hcn]
  exact ⟨s1, hrun, hcount1, hupg1,
    upgradeElement_named_skip e n s1 hn hupg1, rfl, rfl, hcount1⟩

/-- Witness for C4: upgrading element `1` of the demo state for `LogicalB` twice. -/
theorem claim_upgrade_idempotent_witness :
    ∃ s1, upgradeElementInternal 1 (some "LogicalB") demoState = .ok s1 ∧
      countInstances s1 1 "LogicalB" = 1 ∧
      isElementUpgraded_ (s1.dom 1) "LogicalB" = true ∧
      upgradeElementInternal 1 (some "LogicalB") s1
        = .ok (dispatchEvent s1 (upgradingEvent 1)) ∧
      (dispatchEvent s1 (upgradingEvent 1)).createdComponents
        = s1.createdComponents ∧
      (dispatchEvent s1 (upgradingEvent 1)).dom = s1.dom ∧
      countInstances (dispatchEvent s1 (upgradingEvent 1)) 1 "LogicalB" = 1 :=
  claim_upgrade_idempotent demoState 1 "LogicalB" cfgB (by decide) (by decide)
    rfl rfl rfl rfl

/-- An element upgraded for both `LogicalA` and `LogicalB`, as written by two
successive upgrade passes. -/
def elemDouble : ElemState :=
  { classList := ["a", "b"], dataUpgraded := some ",LogicalA,LogicalB"
    children := [], props := [("LogicalA", 0), ("LogicalB", 1)]
    cancelUpgrading := false }

/-- The tracked `LogicalA` instance on element `0`. -/
def compA : Component := { id := 0, elementId := 0, config := cfgA }

/-- The tracked `LogicalB` instance on element `0`. -/
def compB : Component := { id := 1, elementId := 0, config := cfgB }

/-- A state in which element `0` carries both widgets. -/
def stateDouble : MdlState :=
  { registeredComponents := [cfgA, cfgB], createdComponents := [compA, compB]
    dom := fun _ => elemDouble, events := [], nextInstanceId := 2 }

/-- C2 (code bug): downgrading the tracked `LogicalA` instance of an element whose
marker is `,LogicalA,LogicalB` removes the instance itself correctly, but removes
the marker entry `LogicalB` — the LAST entry — instead of the entry `LogicalA`
equal to the instance's logical name: the stored config record has no
`classAsString` field, so the code looks up `undefined`, `indexOf` returns `-1`,
and `splice(-1, 1)` drops the last entry.  The spec's description (remove the one
entry matching this instance's logical name; other logical names unaffected) is
the evident intent, and the code diverges from it. -/
theorem claim_downgrade_marker_removal_bug :
    (deconstructComponentInternal compA stateDouble).createdComponents = [compB] ∧
    ((deconstructComponentInternal compA stateDouble).dom 0).dataUpgraded
      = some ",LogicalA" ∧
    ((deconstructComponentInternal compA stateDouble).dom 0).dataUpgraded
      ≠ some ",LogicalB" := by
  refine ⟨rfl, rfl, by decide⟩

/-- An element whose marker is the empty string reports nothing (but the empty
name) as upgraded. -/
theorem isElementUpgraded_empty_marker (element : ElemState)
    (h : element.dataUpgraded = some "") (n : String) (hn : n ≠ "") :
    isElementUpgraded_ element n = false := by
  unfold isElementUpgraded_ getUpgradedListOfElement_
  rw [h]
  show (jsSplit comma "").contains n = false
  simpa [jsSplit, splitChar] using fun hh => hn hh

/-- C1: round trip — on a fresh element `e` (no marker, no tracked instances) with
a registered (nonempty, comma-free) logical name `n` and no cancelling listener,
`upgradeElement(e, n)` creates the one tracked instance and marks `e`; a following
`downgradeElements([e])` leaves the marker without `n`, removes the instance for
`(e, n)` from the tracking list, and a repeated `upgradeElement(e, n)` succeeds
again, creating a new instance (count back to one, not blocked by stale state). -/
theorem claim_round_trip_upgrade_downgrade (s : MdlState) (e : Nat) (n : String)
    (cfg : ComponentConfig)
    (hn : n ≠ "")
    (hnfree : ∀ a ∈ n.data, a ≠ comma)
    (hcancel : (s.dom e).cancelUpgrading = false)
    (hfresh : (s.dom e).dataUpgraded = none)
    (hnoinst : ∀ c ∈ s.createdComponents, c.elementId ≠ e)
    (hfind : (findRegisteredClass_ n none s.registeredComponents).1 = some cfg) :
    ∃ s1, upgradeElementInternal e (some n) s = .ok s1 ∧
      isElementUpgraded_ (s1.dom e) n = true ∧
      countInstances s1 e n = 1 ∧
      isElementUpgraded_ ((downgradeNodesInternal [e] s1).dom e) n = false ∧
      countInstances (downgradeNodesInternal [e] s1) e n = 0 ∧
      (∀ c ∈ (downgradeNodesInternal [e] s1).createdComponents, c.elementId ≠ e) ∧
      ∃ s3, upgradeElementInternal e (some n) (downgradeNodesInternal [e] s1)
          = .ok s3 ∧
        s3.createdComponents = (downgradeNodesInternal [e] s1).createdComponents
          ++ [⟨(downgradeNodesInternal [e] s1).nextInstanceId, e, cfg⟩] ∧
        countInstances s3 e n = 1 := by
  have hcn : cfg.className = n :=
    (findRegisteredClass_none_fst n s.registeredComponents cfg hfind).1
  have hnotup : isElementUpgraded_ (s.dom e) n = false :=
    isElementUpgraded_fresh (s.dom e) hfresh n hn
  obtain ⟨s1, hrun, hreg, hcreated, hnext, hevents, hother, hshape, hmarker⟩ :=
    upgradeElement_named_ok e n s cfg hn hcancel hnotup hfind
  have hlist : getUpgradedListOfElement_ (s.dom e) = [""] := by
    unfold getUpgradedListOfElement_
    rw [hfresh]
  have hmarker1 : (s1.dom e).dataUpgraded = some (jsJoin comma ([""] ++ [n])) := by
    rw [hmarker, hlist, hcn]
  have hemptyfree : ∀ p ∈ ([""] : List String), ∀ a ∈ p.data, a ≠ comma := by
    intro p hp
    simp only [List.mem_singleton] at hp
    subst hp
    intro a ha
    simp [String.data] at ha
  have hupg1 : isElementUpgraded_ (s1.dom e) n = true :=
    isElementUpgraded_after_append (s1.dom e) [""] n hemptyfree hnfree hmarker1
  have hfilter : s.createdComponents.filter
      (fun c => c.elementId == e && c.config.className == n) = [] := by
    rw [List.filter_eq_nil_iff]
    intro c hc
    simp [hnoinst c hc]
  have hcount1 : countInstances s1 e n = 1 := by
    unfold countInstances
    rw [hcreated, List.filter_append, hfilter]
    simp [hcn]
  -- the downgrade pass reduces to deconstructing the single tracked instance
  have hfilterE : s1.createdComponents.filter (fun item => item.elementId == e)
      = [⟨s.nextInstanceId, e, cfg⟩] := by
    rw [hcreated, List.filter_append]
    have h1 : s.createdComponents.filter (fun item => item.elementId == e) = [] := by
      rw [List.filter_eq_nil_iff]
      intro c hc
      simp [hnoinst c hc]
    rw [h1]
    simp
  have hdown : downgradeNodesInternal [e] s1
      = deconstructComponentInternal ⟨s.nextInstanceId, e, cfg⟩ s1 := by
    show downgradeNode e s1 = _
    unfold downgradeNode
    rw [hfilterE]
    rfl
  obtain ⟨s2, hs2, hs2created, hs2reg, hs2next, hs2events, hs2other, hs2shape,
      hs2marker⟩ :=
    deconstruct_removes_last s1 ⟨s.nextInstanceId, e, cfg⟩ s.createdComponents
      [""] n hcreated
      (fun hmem => hnoinst _ hmem rfl)
      hemptyfree hnfree hmarker1
  have hdown2 : downgradeNodesInternal [e] s1 = s2 := hdown.trans hs2
  have hs2marker' : (s2.dom e).dataUpgraded = some "" := by
    have : jsJoin comma ([""] : List String) = "" := rfl
    rw [← this]
    exact hs2marker
  have hnotup2 : isElementUpgraded_ (s2.dom e) n = false :=
    isElementUpgraded_empty_marker (s2.dom e) hs2marker' n hn
  have hcount2 : countInstances s2 e n = 0 := by
    unfold countInstances
    rw [hs2created, hfilter]
    rfl
  have hnoinst2 : ∀ c ∈ s2.createdComponents, c.elementId ≠ e := by
    rw [hs2created]
    exact hnoinst
  have hcancel2 : (s2.dom e).cancelUpgrading = false := by
    rw [(hs2shape e).2.2, (hshape e).2.2]
    exact hcancel
  have hfind2 : (findRegisteredClass_ n none s2.registeredComponents).1 = some cfg := by
    rw [hs2reg, hreg]
    exact hfind
  obtain ⟨s3, hrun3, _hreg3, hcreated3, _hnext3, _hevents3, _hother3, _hshape3,
      _hmarker3⟩ :=
    upgradeElement_named_ok e n s2 cfg hn hcancel2 hnotup2 hfind2
  have hcount3 : countInstances s3 e n = 1 := by
    unfold countInstances
    rw [hcreated3, List.filter_append, hs2created, hfilter]
    simp [hcn]
  refine ⟨s1, hrun, hupg1, hcount1, ?_, ?_, ?_, ⟨s3, ?_, ?_, hcount3⟩⟩
  · rw [hdown2]; exact hnotup2
  · rw [hdown2]; exact hcount2
  · rw [hdown2]; exact hnoinst2
  · rw [hdown2]; exact hrun3
  · rw [hdown2]; exact hcreated3

/-- Witness for C1: the round trip on element `1` of the demo state for the
registered name `LogicalB`. -/
theorem claim_round_trip_upgrade_downgrade_witness :
    ∃ s1, upgradeElementInternal 1 (some "LogicalB") demoState = .ok s1 ∧
      isElementUpgraded_ (s1.dom 1) "LogicalB" = true ∧
      countInstances s1 1 "LogicalB" = 1 ∧
      isElementUpgraded_ ((downgradeNodesInternal [1] s1).dom 1) "LogicalB" = false ∧
      countInstances (downgradeNodesInternal [1] s1) 1 "LogicalB" = 0 ∧
      (∀ c ∈ (downgradeNodesInternal [1] s1).createdComponents, c.elementId ≠ 1) ∧
      ∃ s3, upgradeElementInternal 1 (some "LogicalB") (downgradeNodesInternal [1] s1)
          = .ok s3 ∧
        s3.createdComponents = (downgradeNodesInternal [1] s1).createdComponents
          ++ [⟨(downgradeNodesInternal [1] s1).nextInstanceId, 1, cfgB⟩] ∧
        countInstances s3 1 "LogicalB" = 1 :=
  claim_round_trip_upgrade_downgrade demoState 1 "LogicalB" cfgB (by decide)
    (by decide) rfl rfl (by intro c hc; simp [demoState] at hc) rfl

/-- The batch upgrade of an empty list returns the state unchanged. -/
theorem upgradeElements_nil (fuel : Nat) (s : MdlState) :
    upgradeElementsInternal fuel [] s = .ok s := by
  rw [upgradeElementsInternal]

/-- One batch step on a childless element: upgrade it and continue with the rest. -/
theorem upgradeElements_cons_leaf (fuel : Nat) (e : Nat) (rest : List Nat)
    (s s1 : MdlState)
    (hrun : upgradeElementInternal e none s = .ok s1)
    (hleaf : (s1.dom e).children = []) :
    upgradeElementsInternal fuel (e :: rest) s
      = upgradeElementsInternal fuel rest s1 := by
  conv_lhs => rw [upgradeElementsInternal.eq_def]
  simp [hrun, hleaf]

/-- One batch step on an element with children: upgrade it, recurse into the
children (consuming one unit of fuel), then continue with the rest. -/
theorem upgradeElements_cons_children (fuel' : Nat) (e : Nat) (rest : List Nat)
    (s s1 s2 : MdlState)
    (hrun : upgradeElementInternal e none s = .ok s1)
    (hne : (s1.dom e).children ≠ [])
    (hchildrun : upgradeElementsInternal fuel' ((s1.dom e).children) s1 = .ok s2) :
    upgradeElementsInternal (fuel' + 1) (e :: rest) s
      = upgradeElementsInternal (fuel' + 1) rest s2 := by
  conv_lhs => rw [upgradeElementsInternal.eq_def]
  simp only [hrun]
  rw [if_pos (by simpa using List.length_pos.mpr hne)]
  simp [hchildrun]

/-- C6: ordering — a batch upgrade of a parent `p` with two fresh matching leaf
children `c1`, `c2` (in that document order) is exactly the sequential composition
of upgrading `p`, then `c1`, then `c2` (parent first, children depth-first in
document order), each visited exactly once; and within each element the created
instances follow the registry's registration order (`matchingComponents` is the
registration-ordered filter of the registry), as the grouped event trace shows. -/
theorem claim_upgrade_ordering (s : MdlState) (p c1 c2 : Nat) (fuel : Nat)
    (hp1 : c1 ≠ p) (hp2 : c2 ≠ p) (h12 : c2 ≠ c1)
    (hchildp : (s.dom p).children = [c1, c2])
    (hchild1 : (s.dom c1).children = [])
    (hchild2 : (s.dom c2).children = [])
    (hfreshp : (s.dom p).dataUpgraded = none)
    (hfresh1 : (s.dom c1).dataUpgraded = none)
    (hfresh2 : (s.dom c2).dataUpgraded = none)
    (hcancelp : (s.dom p).cancelUpgrading = false)
    (hcancel1 : (s.dom c1).cancelUpgrading = false)
    (hcancel2 : (s.dom c2).cancelUpgrading = false)
    (hnodup : s.registeredComponents.Nodup)
    (hnames : ∀ c ∈ s.registeredComponents, c.className ≠ "")
    (hfuel : 0 < fuel) :
    ∃ s1 s2 s3,
      upgradeElementInternal p none s = .ok s1 ∧
      upgradeElementInternal c1 none s1 = .ok s2 ∧
      upgradeElementInternal c2 none s2 = .ok s3 ∧
      upgradeElementsInternal fuel [p] s = .ok s3 ∧
      s1.createdComponents = s.createdComponents
        ++ mkInstances p s.nextInstanceId (matchingComponents s p) ∧
      s2.createdComponents = s1.createdComponents
        ++ mkInstances c1 s1.nextInstanceId (matchingComponents s c1) ∧
      s3.createdComponents = s2.createdComponents
        ++ mkInstances c2 s2.nextInstanceId (matchingComponents s c2) ∧
      s3.events = s.events
        ++ (upgradingEvent p ::
            List.replicate (matchingComponents s p).length (upgradedEvent p))
        ++ (upgradingEvent c1 ::
            List.replicate (matchingComponents s c1).length (upgradedEvent c1))
        ++ (upgradingEvent c2 ::
            List.replicate (matchingComponents s c2).length (upgradedEvent c2)) := by
  obtain ⟨s1, hrun1, hreg1, hcre1, hnext1, hev1, hoth1, hshape1, hmark1⟩ :=
    upgradeElement_scan_ok p s hcancelp hfreshp hnodup hnames
  have hdom1c1 : s1.dom c1 = s.dom c1 := hoth1 c1 hp1
  have hdom1c2 : s1.dom c2 = s.dom c2 := hoth1 c2 hp2
  have hnodup1 : s1.registeredComponents.Nodup := by rw [hreg1]; exact hnodup
  have hnames1 : ∀ c ∈ s1.registeredComponents, c.className ≠ "" := by
    rw [hreg1]; exact hnames
  obtain ⟨s2, hrun2, hreg2, hcre2, hnext2, hev2, hoth2, hshape2, hmark2⟩ :=
    upgradeElement_scan_ok c1 s1 (by rw [hdom1c1]; exact hcancel1)
      (by rw [hdom1c1]; exact hfresh1) hnodup1 hnames1
  have hmc1 : matchingComponents s1 c1 = matchingComponents s c1 := by
    unfold matchingComponents
    rw [hreg1, hdom1c1]
  have hdom2c2 : s2.dom c2 = s.dom c2 := by rw [hoth2 c2 h12, hdom1c2]
  have hnodup2 : s2.registeredComponents.Nodup := by rw [hreg2]; exact hnodup1
  have hnames2 : ∀ c ∈ s2.registeredComponents, c.className ≠ "" := by
    rw [hreg2]; exact hnames1
  obtain ⟨s3, hrun3, hreg3, hcre3, hnext3, hev3, hoth3, hshape3, hmark3⟩ :=
    upgradeElement_scan_ok c2 s2 (by rw [hdom2c2]; exact hcancel2)
      (by rw [hdom2c2]; exact hfresh2) hnodup2 hnames2
  have hmc2 : matchingComponents s2 c2 = matchingComponents s c2 := by
    unfold matchingComponents
    rw [hreg2, hreg1, hdom2c2]
  obtain ⟨f, rfl⟩ : ∃ f, fuel = f + 1 := ⟨fuel - 1, by omega⟩
  have hchildp1 : (s1.dom p).children = [c1, c2] := by
    rw [(hshape1 p).1]; exact hchildp
  have hchild1s2 : (s2.dom c1).children = [] := by
    rw [(hshape2 c1).1, hdom1c1]; exact hchild1
  have hchild2s3 : (s3.dom c2).children = [] := by
    rw [(hshape3 c2).1, hdom2c2]; exact hchild2
  have hinner2 : upgradeElementsInternal f [c2] s2 = .ok s3 := by
    rw [upgradeElements_cons_leaf f c2 [] s2 s3 hrun3 hchild2s3,
      upgradeElements_nil]
  have hinner : upgradeElementsInternal f [c1, c2] s1 = .ok s3 := by
    rw [upgradeElements_cons_leaf f c1 [c2] s1 s2 hrun2 hchild1s2]
    exact hinner2
  have hbatch : upgradeElementsInternal (f + 1) [p] s = .ok s3 := by
    rw [upgradeElements_cons_children f p [] s s1 s3 hrun1
      (by rw [hchildp1]; simp)
      (by rw [hchildp1]; exact hinner),
      upgradeElements_nil]
  refine ⟨s1, s2, s3, hrun1, hrun2, hrun3, hbatch, hcre1, ?_, ?_, ?_⟩
  · rw [hcre2, hmc1]
  · rw [hcre3, hmc2]
  · rw [hev3, hev2, hev1, hmc1, hmc2]

/-- Witness for C6: the demo state — parent `0` (marker class `a`) with children
`1` (marker class `b`) and `2` (marker classes `a` and `b`). -/
theorem claim_upgrade_ordering_witness :
    ∃ s1 s2 s3,
      upgradeElementInternal 0 none demoState = .ok s1 ∧
      upgradeElementInternal 1 none s1 = .ok s2 ∧
      upgradeElementInternal 2 none s2 = .ok s3 ∧
      upgradeElementsInternal 1 [0] demoState = .ok s3 ∧
      s1.createdComponents = demoState.createdComponents
        ++ mkInstances 0 demoState.nextInstanceId (matchingComponents demoState 0) ∧
      s2.createdComponents = s1.createdComponents
        ++ mkInstances 1 s1.nextInstanceId (matchingComponents demoState 1) ∧
      s3.createdComponents = s2.createdComponents
        ++ mkInstances 2 s2.nextInstanceId (matchingComponents demoState 2) ∧
      s3.events = demoState.events
        ++ (upgradingEvent 0 ::
            List.replicate (matchingComponents demoState 0).length (upgradedEvent 0))
        ++ (upgradingEvent 1 ::
            List.replicate (matchingComponents demoState 1).length (upgradedEvent 1))
        ++ (upgradingEvent 2 ::
            List.replicate (matchingComponents demoState 2).length (upgradedEvent 2)) :=
  claim_upgrade_ordering demoState 0 1 2 1 (by decide) (by decide) (by decide)
    rfl rfl rfl rfl rfl rfl rfl rfl rfl (by decide) (by decide) (by decide)

end Mdl
